import Mathlib

/-!
# Provenonce Beats — verification of the sequential-work hash-chain service

Shallow embedding of the core of the `provenonce-beats` repository:

* the sequential-work hash-chain engine (`computeBeat` / `verifyBeat` /
  `verifyBeatChain` / `verifyCheckinProof` from `src/lib/beat.ts`),
* the canonical anchor selector and memo codec
  (`selectCanonicalAnchor` / `parseAnchorMemo` from `lib/anchor-canonical.js`,
  bundled inside `src/lib/solana.ts`),
* the work-proof endpoint's validation pipeline
  (`POST /api/v1/beat/work-proof`),
* the cron anchor-advancement handler (`GET /api/cron/anchor`, hardened
  version with `constantTimeSecretEqual`).

JavaScript numbers that the code only ever uses at integral values are
modelled as `Int`/`Nat`; strings are Lean `String`s; `undefined`-able
fields are `Option`s.  SHA-256 is implemented executably over byte lists
(`Nat`s < 256) so that every definition is computable, and strings are
fed to it through an explicit UTF-8 encoder mirroring
`Buffer.from(s, 'utf8')`.
-/

namespace Beats

/-! ## Bytes and hex -/

/-- Lowercase hexadecimal digits, as used by node's `digest('hex')`. -/
def hexDigits : List Char := "0123456789abcdef".data

/-- One hex digit for a value < 16. -/
def hexChar (n : Nat) : Char := hexDigits.getD n 'x'

/-- Two lowercase hex digits of one byte. -/
def byteHex (b : Nat) : List Char := [hexChar (b / 16 % 16), hexChar (b % 16)]

/-- Lowercase hex string of a byte list, as `digest('hex')` renders it. -/
def hexOfBytes (bs : List Nat) : String := String.mk ((bs.map byteHex).flatten)

/-- UTF-8 encoding of a Unicode code point (`Buffer.from(·, 'utf8')` on one char). -/
def encChar (n : Nat) : List Nat :=
  if n < 128 then [n]
  else if n < 2048 then [192 + n / 64, 128 + n % 64]
  else if n < 65536 then [224 + n / 4096, 128 + n / 64 % 64, 128 + n % 64]
  else [240 + n / 262144, 128 + n / 4096 % 64, 128 + n / 64 % 64, 128 + n % 64]

/-- UTF-8 bytes of a string (`Buffer.from(s, 'utf8')`). -/
def encStr (s : String) : List Nat := ((s.data.map (fun c => encChar c.toNat)).flatten)

/-! ## SHA-256 (executable, over byte lists) -/

/-- The 64 SHA-256 round constants. -/
def shaK : List Nat :=
  [1116352408, 1899447441, 3049323471, 3921009573, 961987163, 1508970993,
   2453635748, 2870763221, 3624381080, 310598401, 607225278, 1426881987,
   1925078388, 2162078206, 2614888103, 3248222580, 3835390401, 4022224774,
   264347078, 604807628, 770255983, 1249150122, 1555081692, 1996064986,
   2554220882, 2821834349, 2952996808, 3210313671, 3336571891, 3584528711,
   113926993, 338241895, 666307205, 773529912, 1294757372, 1396182291,
   1695183700, 1986661051, 2177026350, 2456956037, 2730485921, 2820302411,
   3259730800, 3345764771, 3516065817, 3600352804, 4094571909, 275423344,
   430227734, 506948616, 659060556, 883997877, 958139571, 1322822218,
   1537002063, 1747873779, 1955562222, 2024104815, 2227730452, 2361852424,
   2428436474, 2756734187, 3204031479, 3329325298]

/-- Working state: the eight 32-bit words. -/
structure Sha256State where
  a : Nat
  b : Nat
  c : Nat
  d : Nat
  e : Nat
  f : Nat
  g : Nat
  h : Nat

/-- SHA-256 initial hash values. -/
def shaInit : Sha256State :=
  ⟨1779033703, 3144134277, 1013904242, 2773480762, 1359893119, 2600822924, 528734635, 1541459225⟩

/-- Right rotation of a 32-bit word, by pure arithmetic. -/
def rotr32 (w k : Nat) : Nat := (w / 2 ^ k + w % 2 ^ k * 2 ^ (32 - k)) % 2 ^ 32

/-- Bitwise complement of a 32-bit word. -/
def not32 (w : Nat) : Nat := w ^^^ 0xffffffff

/-- Split a byte list into 32-bit big-endian words. -/
def toWords : List Nat → List Nat
  | b0 :: b1 :: b2 :: b3 :: rest => (((b0 * 256 + b1) * 256 + b2) * 256 + b3) :: toWords rest
  | _ => []

/-- Split a byte list into 64-byte blocks. -/
def toBlocks (l : List Nat) : List (List Nat) :=
  match l with
  | [] => []
  | x :: rest => ((x :: rest).take 64) :: toBlocks (rest.drop 63)
termination_by l.length
decreasing_by simp; omega

/-- Extend the 16 message words to 64 schedule words (k more steps). -/
def extendSchedule : Nat → List Nat → List Nat
  | 0, ws => ws
  | k + 1, ws =>
    let n := ws.length
    let w15 := ws.getD (n - 15) 0
    let w2 := ws.getD (n - 2) 0
    let s0 := rotr32 w15 7 ^^^ rotr32 w15 18 ^^^ w15 / 2 ^ 3
    let s1 := rotr32 w2 17 ^^^ rotr32 w2 19 ^^^ w2 / 2 ^ 10
    extendSchedule k (ws ++ [(ws.getD (n - 16) 0 + s0 + ws.getD (n - 7) 0 + s1) % 2 ^ 32])

/-- One SHA-256 compression round. -/
def shaRound (st : Sha256State) (kw : Nat × Nat) : Sha256State :=
  let s1 := rotr32 st.e 6 ^^^ rotr32 st.e 11 ^^^ rotr32 st.e 25
  let ch := (st.e &&& st.f) ^^^ (not32 st.e &&& st.g)
  let temp1 := (st.h + s1 + ch + kw.1 + kw.2) % 2 ^ 32
  let s0 := rotr32 st.a 2 ^^^ rotr32 st.a 13 ^^^ rotr32 st.a 22
  let maj := (st.a &&& st.b) ^^^ (st.a &&& st.c) ^^^ (st.b &&& st.c)
  let temp2 := (s0 + maj) % 2 ^ 32
  ⟨(temp1 + temp2) % 2 ^ 32, st.a, st.b, st.c, (st.d + temp1) % 2 ^ 32, st.e, st.f, st.g⟩

/-- Compress one 64-byte block into the running state. -/
def compressBlock (st : Sha256State) (block : List Nat) : Sha256State :=
  let ws := extendSchedule 48 (toWords block)
  let r := (shaK.zip ws).foldl shaRound st
  ⟨(st.a + r.a) % 2 ^ 32, (st.b + r.b) % 2 ^ 32, (st.c + r.c) % 2 ^ 32, (st.d + r.d) % 2 ^ 32,
   (st.e + r.e) % 2 ^ 32, (st.f + r.f) % 2 ^ 32, (st.g + r.g) % 2 ^ 32, (st.h + r.h) % 2 ^ 32⟩

/-- A 32-bit word as 4 big-endian bytes. -/
def wordBytes (w : Nat) : List Nat := [w / 2 ^ 24 % 256, w / 2 ^ 16 % 256, w / 256 % 256, w % 256]

/-- The 8-byte big-endian encoding of a < 2^64 value (also `u64be` of `beat.ts`). -/
def u64be (n : Nat) : List Nat :=
  [n / 2 ^ 56 % 256, n / 2 ^ 48 % 256, n / 2 ^ 40 % 256, n / 2 ^ 32 % 256,
   n / 2 ^ 24 % 256, n / 2 ^ 16 % 256, n / 256 % 256, n % 256]

/-- SHA-256 digest (32 bytes) of a byte-list message. -/
def sha256bytes (msg : List Nat) : List Nat :=
  let padZeros := (64 + 56 - (msg.length + 1) % 64) % 64
  let padded := msg ++ 128 :: List.replicate padZeros 0 ++ u64be (msg.length * 8)
  let fin := (toBlocks padded).foldl compressBlock shaInit
  wordBytes fin.a ++ wordBytes fin.b ++ wordBytes fin.c ++ wordBytes fin.d ++
  wordBytes fin.e ++ wordBytes fin.f ++ wordBytes fin.g ++ wordBytes fin.h

/-- Hex SHA-256 of a string: `createHash('sha256').update(s, 'utf8').digest('hex')`. -/
def sha256hex (s : String) : String := hexOfBytes (sha256bytes (encStr s))

/-! ## The Beat data model (`src/lib/beat.ts`) -/

/-- A single Beat — one tick of the sequential hash chain. -/
structure Beat where
  index : Int
  hash : String
  prev : String
  timestamp : Int
  nonce : Option String := none
  anchor_hash : Option String := none
deriving Repr, DecidableEq

/-- JS truthiness of a string-or-undefined value (only `undefined` and `''` are falsy). -/
def strTruthy : Option String → Bool
  | none => false
  | some s => !(s == "")

/-- JS `x || ''` on a string-or-undefined value. -/
def optStr (o : Option String) : String := o.getD ""

/-- Is a string 64 hex characters?  (`HEX64 = /^[0-9a-f]{64}$/i` of the
routes and of `anchor-canonical.js` — case-insensitive). -/
def isHex64 (s : String) : Bool :=
  s.length == 64 && s.data.all fun c =>
    ('0' ≤ c && c ≤ '9') || ('a' ≤ c && c ≤ 'f') || ('A' ≤ c && c ≤ 'F')

/-! ## computeBeat / verifyBeat (`beat.ts` lines 127-176) -/

/-- The seed string of `computeBeat`:
`prevHash:beatIndex:nonce||''` with `:anchorHash` appended when `anchorHash` is truthy. -/
def beatSeed (prevHash : String) (beatIndex : Int) (nonce anchorHash : Option String) : String :=
  if strTruthy anchorHash then
    prevHash ++ ":" ++ toString beatIndex ++ ":" ++ optStr nonce ++ ":" ++ optStr anchorHash
  else
    prevHash ++ ":" ++ toString beatIndex ++ ":" ++ optStr nonce

/-- Apply `k` further SHA-256 iterations over the running hex string. -/
def iterHash : Nat → String → String
  | 0, s => s
  | k + 1, s => iterHash k (sha256hex s)

/-- Model of `computeBeat(prevHash, beatIndex, difficulty, nonce?, anchorHash?)`.
`now` stands for the wall-clock `Date.now()` value, which only lands in the
informational `timestamp` field and never in the hash. -/
def computeBeat (prevHash : String) (beatIndex : Int) (difficulty : Nat)
    (nonce anchorHash : Option String) (now : Int) : Beat :=
  let current := iterHash difficulty (sha256hex (beatSeed prevHash beatIndex nonce anchorHash))
  { index := beatIndex, hash := current, prev := prevHash, timestamp := now,
    nonce := nonce, anchor_hash := anchorHash }

/-- Model of `verifyBeat(beat, difficulty)`: recompute the chain from the beat's own
fields and compare hashes.  The recomputation's timestamp is irrelevant. -/
def verifyBeat (beat : Beat) (difficulty : Nat) : Bool :=
  (computeBeat beat.prev beat.index difficulty beat.nonce beat.anchor_hash 0).hash == beat.hash

/-! ## verifyBeatChain (`beat.ts` lines 206-262) -/

/-- Insertion-ordered set add — the behaviour of JS `Set.prototype.add`
(iteration order is insertion order, duplicates ignored). -/
def insertSet (l : List Nat) (x : Nat) : List Nat := if x ∈ l then l else l ++ [x]

/-- Value of one hex digit (0 for non-hex, unreachable on SHA-256 output). -/
def hexDigitVal (c : Char) : Nat :=
  if '0' ≤ c && c ≤ '9' then c.toNat - '0'.toNat
  else if 'a' ≤ c && c ≤ 'f' then c.toNat - 'a'.toNat + 10
  else if 'A' ≤ c && c ≤ 'F' then c.toNat - 'A'.toNat + 10
  else 0

/-- Value of `parseInt(s.slice(0, 8), 16)` for the all-hex strings it is applied to. -/
def hexPrefixVal (s : String) : Nat :=
  (s.data.take 8).foldl (fun acc c => acc * 16 + hexDigitVal c) 0

/-- The `while (toCheck.size < wanted)` rehashing loop of `verifyBeatChain`,
fuelled: the source loop terminates only when iterated SHA-256 eventually
yields `wanted` distinct residues mod `n`, so the embedding bounds it by an
explicit (astronomically large) iteration budget. -/
def sampleLoop : Nat → String → List Nat → Nat → Nat → List Nat
  | 0, _, s, _, _ => s
  | fuel + 1, material, s, n, wanted =>
    if s.length < wanted then
      let m := sha256hex material
      sampleLoop fuel m (insertSet s (hexPrefixVal m % n)) n wanted
    else s

/-- The spot-check index set of `verifyBeatChain` (`beat.ts` lines 214-240):
`0` and `n-1` always; when the clamped request `wanted` exceeds the set so
far, the evenly spaced points (`n/2` for `n ≥ 4`, `n/4` and `3n/4` for
`n ≥ 8`) and then hash-derived extras from
`material = n ":" difficulty ":" first ":" last`. -/
def chainToCheck (beats : List Beat) (difficulty : Nat) (spotCheckCount : Int) : List Nat :=
  let n := beats.length
  let base := insertSet (insertSet [] 0) (n - 1)
  let wanted := (min spotCheckCount (n : Int)).toNat
  if wanted > base.length then
    let first := optStr (beats.head?.map Beat.hash)
    let last := optStr (beats.getLast?.map Beat.hash)
    let material := toString n ++ ":" ++ toString difficulty ++ ":" ++ first ++ ":" ++ last
    let withMid := if 4 ≤ n then insertSet base (n / 2) else base
    let withQuarters :=
      if 8 ≤ n then insertSet (insertSet withMid (n / 4)) (3 * n / 4) else withMid
    sampleLoop (wanted * 4294967296) material withQuarters n wanted
  else base

/-- Placeholder beat for out-of-range indexing (never reached: all sampled
indices are `< beats.length`). -/
def defBeat : Beat := { index := 0, hash := "", prev := "", timestamp := 0 }

/-- Result record of `verifyBeatChain`.  `failed` is a single JS array that
receives both linkage positions and beat index fields, hence `List Int`. -/
structure ChainResult where
  valid : Bool
  checked : Nat
  failed : List Int
deriving Repr, DecidableEq

/-- Model of `verifyBeatChain(beats, difficulty, spotCheckCount)`: linkage check over
consecutive pairs plus `verifyBeat` recomputation at the sampled indices. -/
def verifyBeatChain (beats : List Beat) (difficulty : Nat) (spotCheckCount : Int) : ChainResult :=
  if beats.length = 0 then { valid := true, checked := 0, failed := [] } else
  let toCheck := chainToCheck beats difficulty spotCheckCount
  let failedLink := (List.range' 1 (beats.length - 1)).foldl
    (fun acc i =>
      if (beats.getD i defBeat).prev == (beats.getD (i - 1) defBeat).hash then acc
      else acc ++ [(i : Int)]) []
  let failedAll := toCheck.foldl
    (fun acc idx =>
      if verifyBeat (beats.getD idx defBeat) difficulty then acc
      else acc ++ [(beats.getD idx defBeat).index]) failedLink
  { valid := failedAll.isEmpty,
    checked := toCheck.length + beats.length - 1,
    failed := failedAll }

/-! ## verifyCheckinProof (`beat.ts` lines 514-585) -/

/-- A spot check carried by a check-in proof. -/
structure SpotCheck where
  index : Int
  hash : String
  prev : String
  nonce : Option String := none
deriving Repr, DecidableEq

/-- Check-in proof submitted to the registry (`BeatProof` of `beat.ts`). -/
structure BeatProof where
  agent_hash : String
  from_beat : Int
  to_beat : Int
  from_hash : String
  to_hash : String
  beats_computed : Int
  global_anchor : Int
  anchor_hash : Option String := none
  spot_checks : Option (List SpotCheck) := none
deriving Repr, DecidableEq

/-- Result record of `verifyCheckinProof`. -/
structure CheckinResult where
  valid : Bool
  reason : Option String := none
  spot_checks_verified : Option Nat := none
deriving Repr, DecidableEq

/-- The beat reconstructed from a spot check by the verifier
(`beatToVerify` in the source; the timestamp is immaterial). -/
def spotBeat (check : SpotCheck) (anchorHash : Option String) : Beat :=
  { index := check.index, hash := check.hash, prev := check.prev,
    timestamp := 0, nonce := check.nonce, anchor_hash := anchorHash }

/-- The per-spot-check loop of `verifyCheckinProof`: shape guard on the hash,
required `prev`, then `verifyBeat` recomputation; counts successes. -/
def checkSpots (difficulty : Nat) (anchorHash : Option String) :
    List SpotCheck → Nat → CheckinResult
  | [], verified => { valid := true, spot_checks_verified := some verified }
  | check :: rest, verified =>
    if check.hash = "" ∨ ¬ (check.hash.length = 64) then
      { valid := false, reason := some ("Invalid hash at beat " ++ toString check.index) }
    else if check.prev = "" then
      { valid := false,
        reason := some ("Spot check at beat " ++ toString check.index
          ++ " missing prev hash (required for hash-chain verification)") }
    else if ¬ (verifyBeat (spotBeat check anchorHash) difficulty = true) then
      { valid := false,
        reason := some ("Hash-chain verification failed at beat " ++ toString check.index
          ++ ": recomputed hash does not match") }
    else checkSpots difficulty anchorHash rest (verified + 1)

/-- Model of `verifyCheckinProof(proof, difficulty)`: structural consistency, minimum
spot-check count (C-1), required endpoint check at `to_beat` (M-4), then
hash-chain recomputation of every spot check. -/
def verifyCheckinProof (proof : BeatProof) (difficulty : Nat) : CheckinResult :=
  if ¬ (proof.beats_computed = proof.to_beat - proof.from_beat) then
    { valid := false, reason := some "Beat count mismatch" }
  else if proof.to_beat ≤ proof.from_beat then
    { valid := false, reason := some "Beat range must be forward-moving" }
  else if proof.beats_computed > 0 ∧
      ((proof.spot_checks.getD []).length : Int) < min 3 proof.beats_computed then
    { valid := false,
      reason := some ("Insufficient spot checks: got "
        ++ toString (proof.spot_checks.getD []).length
        ++ ", need at least " ++ toString (min 3 proof.beats_computed)) }
  else if proof.beats_computed > 0 ∧ proof.spot_checks.isSome ∧
      ¬ ((proof.spot_checks.getD []).any fun sc => sc.index == proof.to_beat) then
    { valid := false,
      reason := some ("Spot checks must include to_beat index (" ++ toString proof.to_beat
        ++ ") to verify final hash") }
  else
    checkSpots difficulty proof.anchor_hash (proof.spot_checks.getD []) 0

/-! ## Global anchors and the work-proof endpoint (`src/app/api/v1/beat/work-proof/route.ts`) -/

/-- Global Beat Anchor (`GlobalAnchor` of `beat.ts`; the informational
`signature` / `tx_signature` ledger ids are not modelled). -/
structure GlobalAnchor where
  beat_index : Int
  hash : String
  prev_hash : String
  utc : Int
  difficulty : Int
  epoch : Int
  solana_entropy : Option String := none
deriving Repr, DecidableEq

/-- Constant `MIN_DIFFICULTY` of `beat.ts`. -/
def MIN_DIFFICULTY : Int := 100

/-- Constant `MAX_DIFFICULTY` of `beat.ts`. -/
def MAX_DIFFICULTY : Int := 1000000

/-- Constant `ANCHOR_HASH_GRACE_WINDOW` of `beat.ts`. -/
def ANCHOR_HASH_GRACE_WINDOW : Int := 5

/-- Constant `PUBLIC_MAX_DIFFICULTY` of the work-proof route. -/
def PUBLIC_MAX_DIFFICULTY : Int := 5000

/-- Constant `PUBLIC_MAX_SPOT_CHECKS` of the work-proof route. -/
def PUBLIC_MAX_SPOT_CHECKS : Nat := 25

/-- Constant `MIN_SPOT_CHECKS` of the work-proof route. -/
def MIN_SPOT_CHECKS : Int := 3

/-- A work-proof request after field extraction (hex fields already
lowercased by the route; a non-string `anchor_hash` becomes `none`). -/
structure WorkProofReq where
  from_hash : String
  to_hash : String
  beats_computed : Int
  difficulty : Int
  anchor_index : Int
  anchor_hash : Option String := none
  spot_checks : List SpotCheck := []
deriving Repr, DecidableEq

/-- The signed receipt payload of a successful work proof (`receiptPayload`
minus the wall-clock `utc` and the Ed25519 `signature`, which depend on
server time and key material outside this model). -/
structure WPReceipt where
  beats_verified : Int
  difficulty : Int
  anchor_index : Int
  anchor_hash : Option String
  from_hash : String
  to_hash : String
deriving Repr, DecidableEq

/-- The route's outcome: a structural 400, or an HTTP-200 body that is either
`{valid:false, reason}` or `{valid:true, receipt}`. -/
inductive WPResponse where
  | badRequest (error : String)
  | invalid (reason : String)
  | accepted (receipt : WPReceipt)
deriving Repr, DecidableEq

/-- HTTP status of a work-proof outcome. -/
def wpStatus : WPResponse → Nat
  | .badRequest _ => 400
  | _ => 200

/-- Shape of an optional anchor hash: absent, or 64 hex chars. -/
def optIsHex64 : Option String → Bool
  | none => true
  | some a => isHex64 a

/-- Value of `Math.min(...)` over the spot-check indices (applied to non-empty lists). -/
def listMinD (l : List Int) : Int := l.foldl min (l.headD 0)

/-- Value of `Math.max(...)` over the spot-check indices (applied to non-empty lists). -/
def listMaxD (l : List Int) : Int := l.foldl max (l.headD 0)

/-- The hash-chain recomputation stage and receipt of the work-proof route
(the code pushes failing indices into `failed` and rejects when non-empty —
equivalently, when some spot check fails `verifyBeat`). -/
def wpChainStage (wp : WorkProofReq) : WPResponse :=
  let difficulty := min wp.difficulty PUBLIC_MAX_DIFFICULTY
  if (wp.spot_checks.any fun sc => !(verifyBeat (spotBeat sc wp.anchor_hash) difficulty.toNat)) = true then
    .invalid "spot_check_failed"
  else
    .accepted { beats_verified := wp.beats_computed, difficulty := difficulty,
                anchor_index := wp.anchor_index, anchor_hash := wp.anchor_hash,
                from_hash := wp.from_hash, to_hash := wp.to_hash }

/-- Model of `POST /api/v1/beat/work-proof` after JSON extraction: structural 400s
(the source reports one message per offending spot-check field; collapsed
here into one shape guard), then the logic stage in source order, with
`tip` the result of `readLatestAnchorCached` (`none` also when the read
throws — cold start skips the freshness gate). -/
def workProofPost (wp : WorkProofReq) (tip : Option GlobalAnchor) : WPResponse :=
  if isHex64 wp.from_hash = false then .badRequest "from_hash must be 64 lowercase hex characters"
  else if isHex64 wp.to_hash = false then .badRequest "to_hash must be 64 lowercase hex characters"
  else if wp.beats_computed < 1 then .badRequest "beats_computed must be a positive integer"
  else if wp.anchor_index < 0 then .badRequest "anchor_index must be a non-negative integer"
  else if optIsHex64 wp.anchor_hash = false then
    .badRequest "anchor_hash must be 64 lowercase hex characters when provided"
  else if wp.spot_checks.length = 0 then .badRequest "spot_checks must be a non-empty array"
  else if wp.spot_checks.length > PUBLIC_MAX_SPOT_CHECKS then
    .badRequest "Too many spot checks (max 25)"
  else if (wp.spot_checks.all fun sc =>
      decide (0 ≤ sc.index) && isHex64 sc.hash && isHex64 sc.prev) = false then
    .badRequest "spot_checks entries must be well-shaped"
  else if wp.difficulty < MIN_DIFFICULTY then .invalid "insufficient_difficulty"
  else if (wp.spot_checks.length : Int) < min MIN_SPOT_CHECKS wp.beats_computed then
    .invalid "insufficient_spot_checks"
  else if listMaxD (wp.spot_checks.map SpotCheck.index)
      - listMinD (wp.spot_checks.map SpotCheck.index) > wp.beats_computed then
    .invalid "count_mismatch"
  else
    match tip with
    | some t =>
      if t.beat_index - wp.anchor_index > ANCHOR_HASH_GRACE_WINDOW ∨
          wp.anchor_index > t.beat_index then .invalid "stale_anchor"
      else wpChainStage wp
    | none => wpChainStage wp

/-- All structural (HTTP-400) validations of the work-proof route in one
predicate: hex shapes, `beats_computed ≥ 1`, `anchor_index ≥ 0`, between 1
and 25 well-shaped spot checks. -/
def wpStructuralOk (wp : WorkProofReq) : Bool :=
  isHex64 wp.from_hash && isHex64 wp.to_hash &&
  decide (1 ≤ wp.beats_computed) && decide (0 ≤ wp.anchor_index) &&
  optIsHex64 wp.anchor_hash &&
  decide (1 ≤ wp.spot_checks.length) && decide (wp.spot_checks.length ≤ PUBLIC_MAX_SPOT_CHECKS) &&
  (wp.spot_checks.all fun sc => decide (0 ≤ sc.index) && isHex64 sc.hash && isHex64 sc.prev)

/-- A concrete structurally valid work-proof request (for the witness). -/
def wpReqW : WorkProofReq :=
  { from_hash := String.mk (List.replicate 64 'a'),
    to_hash := String.mk (List.replicate 64 'b'),
    beats_computed := 10, difficulty := 50, anchor_index := 0, anchor_hash := none,
    spot_checks := [{ index := 1, hash := String.mk (List.replicate 64 'c'),
                      prev := String.mk (List.replicate 64 'd') }] }

/-! ## Anchor memo codec (`lib/anchor-canonical.js`, `parseAnchorMemo`) -/

/-- A JSON number, as far as this codec observes it: `Number.isInteger` plus
the integer value.  All non-integral doubles are collapsed into `nonint`,
which every `Number.isInteger` guard rejects before any value is read. -/
inductive Jnum where
  | int (n : Int)
  | nonint
deriving Repr, DecidableEq

/-- A parsed JSON value (`JSON.parse` output). -/
inductive Json where
  | null
  | bool (b : Bool)
  | num (n : Jnum)
  | str (s : String)
  | arr (xs : List Json)
  | obj (fields : List (String × Json))
deriving Repr

/-- JS property read `p[k]`: `undefined` (`none`) off non-objects and missing
keys; for duplicate keys `JSON.parse` keeps the last occurrence. -/
def jget : Json → String → Option Json
  | .obj fields, k => (fields.reverse.find? fun f => f.1 == k).map Prod.snd
  | _, _ => none

/-- JS falsiness of a parsed JSON value (`NaN`, folded into `Jnum.nonint`,
is falsy too, but either reading of `nonint` gives the same parse result
because a number never carries a `v` property). -/
def jsFalsy : Json → Bool
  | .null => true
  | .bool false => true
  | .num (.int 0) => true
  | .str "" => true
  | _ => false

/-- The normalized anchor record returned by `parseAnchorMemo`.  The source
builds the object with exactly six fields, so reading `solana_entropy` off
it yields `undefined` — modelled as a `none` default. -/
structure AnchorRec where
  beat_index : Int
  hash : String
  prev_hash : String
  utc : Int
  difficulty : Int
  epoch : Int
  solana_entropy : Option String := none
deriving Repr, DecidableEq

/-- Value of `memoStr.indexOf('] ')` over the character list. -/
def findBracketEnd : List Char → Nat → Option Nat
  | c1 :: c2 :: rest, i =>
    if c1 = ']' ∧ c2 = ' ' then some i else findBracketEnd (c2 :: rest) (i + 1)
  | _, _ => none
termination_by l _ => l.length

/-- Strip a leading `"[n] "` ledger tag: drop through the first `"] "` when
the memo starts with `"["`. -/
def stripMemoTag (memo : String) : String :=
  match findBracketEnd memo.data 0 with
  | some i => if memo.startsWith "[" then String.mk (memo.data.drop (i + 2)) else memo
  | none => memo

/-- Model of `parseAnchorMemo` after `JSON.parse` (the JS builtin parser is modelled
as the already-parsed `Option Json` argument; `none` is a parse failure,
which the source catches and turns into `null`).  Field checks follow the
source; a type mismatch on any field rejects just as the source's guards
do.  The returned object carries only the six listed fields — in
particular no `solana_entropy`. -/
def parseAnchorMemo (parsed : Option Json) : Option AnchorRec :=
  match parsed with
  | none => none
  | some p =>
    if jsFalsy p then none
    else if (match jget p "v" with | some (.num (.int n)) => n == 1 | _ => false) = false then none
    else if (match jget p "type" with | some (.str t) => t == "anchor" | _ => false) = false then none
    else
      match jget p "beat_index", jget p "hash", jget p "prev",
          jget p "utc", jget p "difficulty", jget p "epoch" with
      | some (.num (.int bi)), some (.str h), some (.str pv),
          some (.num (.int u)), some (.num (.int diff)), some (.num (.int ep)) =>
        if bi < 0 then none
        else if ¬ (isHex64 h = true ∧ isHex64 pv = true) then none
        else if u < 0 then none
        else if diff ≤ 0 then none
        else if ep < 0 then none
        else some { beat_index := bi, hash := h, prev_hash := pv,
                    utc := u, difficulty := diff, epoch := ep }
      | _, _, _, _, _, _ => none

/-- A well-formed anchor memo carrying `solana_entropy` (C8's failing input:
the JSON of `{"v":1,"type":"anchor","beat_index":1,"hash":"a"*64,
"prev":"b"*64,"utc":1700000000000,"difficulty":1000,"epoch":0,
"solana_entropy":"4sGjMW…"}`). -/
def memoJsonW : Json :=
  .obj [("v", .num (.int 1)), ("type", .str "anchor"), ("beat_index", .num (.int 1)),
        ("hash", .str (String.mk (List.replicate 64 'a'))),
        ("prev", .str (String.mk (List.replicate 64 'b'))),
        ("utc", .num (.int 1700000000000)), ("difficulty", .num (.int 1000)),
        ("epoch", .num (.int 0)),
        ("solana_entropy", .str "4sGjMW1sUnHzSxGspuhpqLDx6wiyjNtZAMdL1VZHirAn")]

/-! ## The cron anchor route (`GET /api/cron/anchor`, hardened version) -/

/-- Model of `constantTimeSecretEqual(provided, expected)`: UTF-8 byte buffers,
`false` on length mismatch (the source's dummy padded `timingSafeEqual`
call in that branch only equalises timing), else `timingSafeEqual`, whose
value is bytewise equality. -/
def constantTimeSecretEqual (provided expected : String) : Bool :=
  if ¬ ((encStr provided).length = (encStr expected).length) then false
  else (encStr provided == encStr expected)

/-- Constant `BEAT_GENESIS_SEED` of `beat.ts`. -/
def BEAT_GENESIS_SEED : String := "provenonce:beat:genesis:v1:2026"

/-- Model of `genesisPrevHash()` of `anchor-canonical.js` (also the `prevAnchor`
fallback inside `createGlobalAnchor`). -/
def genesisPrevHash : String := sha256hex BEAT_GENESIS_SEED

/-- Constant `DEFAULT_DIFFICULTY` of `beat.ts`. -/
def DEFAULT_DIFFICULTY : Int := 1000

/-- Is a character a hex digit? -/
def isHexDigit (c : Char) : Bool :=
  ('0' ≤ c && c ≤ '9') || ('a' ≤ c && c ≤ 'f') || ('A' ≤ c && c ≤ 'F')

/-- Model of `Buffer.from(hex, 'hex')`: consume hex-digit pairs, stop at the first
invalid pair. -/
def hexPairBytes : List Char → List Nat
  | c1 :: c2 :: rest =>
    if isHexDigit c1 && isHexDigit c2 then
      (hexDigitVal c1 * 16 + hexDigitVal c2) :: hexPairBytes rest
    else []
  | _ => []

/-- Model of `hexToBytes` of `beat.ts`. -/
def hexToBytes (hex : String) : List Nat := hexPairBytes hex.data

/-- The base58 alphabet of `beat.ts`. -/
def BASE58_ALPHABET : String := "123456789ABCDEFGHJKLMNPQRSTUVWXYZabcdefghijkmnopqrstuvwxyz"

/-- The numeric value a base58 string denotes, `none` on an invalid
character (the source throws `invalid base58 character`). -/
def base58Value : List Char → Option Nat
  | [] => some 0
  | c :: rest =>
    match BASE58_ALPHABET.data.findIdx? (· == c), base58Value rest with
    | some _, none => none
    | none, _ => none
    | some v, some acc => some (acc * 58 + v)

/-- Little-endian base-256 digits of a positive number. -/
def natToBytesLE (n : Nat) : List Nat :=
  if n = 0 then [] else n % 256 :: natToBytesLE (n / 256)
decreasing_by exact Nat.div_lt_self (Nat.pos_of_ne_zero (by assumption)) (by omega)

/-- Model of `base58Decode` of `beat.ts`, functionally: the carry loop builds the
little-endian base-256 digits of the denoted value (at least one digit —
`bytes` starts as `[0]`), one extra zero is pushed per leading `'1'`, and
the list is reversed. -/
def base58Decode (str : String) : Option (List Nat) :=
  match base58Value str.data.reverse with
  | none => none
  | some v =>
    let leading := (str.data.takeWhile (· == '1')).length
    some (((if v = 0 then [0] else natToBytesLE v) ++ List.replicate leading 0).reverse)

/-- Model of `computeAnchorHashV3(prevHash, beatIndex, solanaEntropy)`: one SHA-256
over `UTF8("PROVENONCE_BEATS_V1") ++ hex_decode(prev) ++ u64be(index) ++
base58_decode(entropy)`; `none` when base58 decoding throws. -/
def computeAnchorHashV3 (prevHash : String) (beatIndex : Int) (solanaEntropy : String) :
    Option String :=
  (base58Decode solanaEntropy).map fun entropy =>
    hexOfBytes (sha256bytes
      (encStr "PROVENONCE_BEATS_V1" ++ hexToBytes prevHash ++ u64be beatIndex.toNat ++ entropy))

/-- Model of `createGlobalAnchor(prevAnchor, difficulty, epoch, solanaEntropy?)`:
V3 single-hash when entropy is (truthily) present, V1 legacy
`computeBeat` with nonce `anchor:utc:epoch` otherwise; `now` stands for
`Date.now()`. `none` only on a base58 throw inside V3. -/
def createGlobalAnchor (prevAnchor : Option GlobalAnchor) (difficulty : Int) (epoch : Int)
    (solanaEntropy : Option String) (now : Int) : Option GlobalAnchor :=
  let index := match prevAnchor with | some p => p.beat_index + 1 | none => 0
  let prevHash :=
    if strTruthy (prevAnchor.map GlobalAnchor.hash) then optStr (prevAnchor.map GlobalAnchor.hash)
    else genesisPrevHash
  if strTruthy solanaEntropy then
    match computeAnchorHashV3 prevHash index (optStr solanaEntropy) with
    | none => none
    | some h =>
      some { beat_index := index, hash := h, prev_hash := prevHash, utc := now,
             difficulty := difficulty, epoch := epoch, solana_entropy := solanaEntropy }
  else
    let nonce := "anchor:" ++ toString now ++ ":" ++ toString epoch
    let beat := computeBeat prevHash index difficulty.toNat (some nonce) none now
    some { beat_index := index, hash := beat.hash, prev_hash := prevHash, utc := now,
           difficulty := difficulty, epoch := epoch, solana_entropy := solanaEntropy }

/-- The anchor memo published by the cron route (`AnchorMemoData` minus the
constant `v:1, type:'anchor'` tags). -/
structure AnchorMemoData where
  beat_index : Int
  hash : String
  prev : String
  utc : Int
  difficulty : Int
  epoch : Int
  solana_entropy : Option String := none
deriving Repr, DecidableEq

/-- Outcome of one cron invocation: HTTP status, the memo published to the
ledger (if any), whether the ledger was read, and the `action` field of the
JSON body. -/
structure CronResult where
  status : Nat
  published : Option AnchorMemoData := none
  ledgerRead : Bool := false
  action : Option String := none
deriving Repr, DecidableEq

/-- The advancement stage of the cron route (after auth and the freshness
gate said the tip is absent or stale): fetch entropy — fail closed with 503
when unavailable — else compute the next anchor and publish its memo. -/
def cronAdvance (latest : Option GlobalAnchor) (now : Int) (entropy : Option String) :
    CronResult :=
  match entropy with
  | none => { status := 503, ledgerRead := true }
  | some e =>
    let prevAnchor := latest.map fun l =>
      { beat_index := l.beat_index, hash := l.hash, prev_hash := l.prev_hash,
        utc := l.utc, difficulty := l.difficulty, epoch := l.epoch : GlobalAnchor }
    let epoch := match prevAnchor with | some p => p.epoch | none => 0
    let difficulty := match prevAnchor with | some p => p.difficulty | none => DEFAULT_DIFFICULTY
    match createGlobalAnchor prevAnchor difficulty epoch (some e) now with
    | none => { status := 500, ledgerRead := true }
    | some newAnchor =>
      { status := 200, ledgerRead := true, action := some "generated",
        published := some { beat_index := newAnchor.beat_index, hash := newAnchor.hash,
                            prev := newAnchor.prev_hash, utc := newAnchor.utc,
                            difficulty := newAnchor.difficulty, epoch := newAnchor.epoch,
                            solana_entropy := some e } }

/-- Model of `GET /api/cron/anchor` (hardened route): 503 when `CRON_SECRET` is
unset; 401 — before any ledger read or publish — unless the `Authorization`
header equals `Bearer <secret>` under `constantTimeSecretEqual`; then read
the tip, skip while fresh, else advance fail-closed. -/
def cronAnchorGet (cronSecret : Option String) (authHeader : Option String)
    (latest : Option GlobalAnchor) (now : Int) (entropy : Option String) : CronResult :=
  match cronSecret with
  | none => { status := 503 }
  | some secret =>
    if (match authHeader with
        | none => true
        | some h => !(constantTimeSecretEqual h ("Bearer " ++ secret))) = true then
      { status := 401 }
    else
      match latest with
      | some l =>
        if ¬ (now - l.utc > 60 * 1000) then
          { status := 200, ledgerRead := true, action := some "skipped" }
        else cronAdvance (some l) now entropy
      | none => cronAdvance none now entropy

/-! ## Canonical anchor selection (`lib/anchor-canonical.js`, `selectCanonicalAnchor`) -/

/-- A candidate anchor tip observed in the ledger — exactly the six fields
the selector reads (the dedup key concatenates exactly these, and hex
hashes and decimal numbers cannot contain the `|` separator, so key
equality is record equality). -/
structure AnchorCand where
  beat_index : Int
  hash : String
  prev_hash : String
  utc : Int
  difficulty : Int
  epoch : Int
deriving Repr, DecidableEq

/-- The malformedness filter of the selector (`Number.isInteger(beat_index)`
is always true of an `Int`). -/
def candValid (c : AnchorCand) : Bool := isHex64 c.hash && isHex64 c.prev_hash

/-- Drop malformed candidates and key-duplicates, keeping first occurrences
(the `seen` set accumulator). -/
def dedupCands : List AnchorCand → List AnchorCand → List AnchorCand
  | [], _ => []
  | c :: rest, seen =>
    if ¬ candValid c = true then dedupCands rest seen
    else if c ∈ seen then dedupCands rest seen
    else c :: dedupCands rest (c :: seen)

/-- Lookup `byIndex.get(i).get(h)`: the maps are built by iterating `deduped` in
order with `Map.set`, so the *last* candidate with that `(beat_index, hash)`
wins. -/
def lookupCand (deduped : List AnchorCand) (i : Int) (h : String) : Option AnchorCand :=
  (deduped.filter fun c => c.beat_index == i && c.hash == h).getLast?

/-- The `while (current.beat_index > 0)` walk of the depth computation,
fuelled by the starting `beat_index`: every found predecessor has
`beat_index` one lower, so the fuel never runs out before the loop's own
exit condition. -/
def depthWalk (deduped : List AnchorCand) : Nat → AnchorCand → Nat
  | 0, _ => 0
  | fuel + 1, current =>
    if current.beat_index ≤ 0 then 0
    else
      match lookupCand deduped (current.beat_index - 1) current.prev_hash with
      | none => 0
      | some prev => 1 + depthWalk deduped fuel prev

/-- The `depth` of a tip: `1` plus the length of the resolvable `prev_hash`
chain inside the candidate set. -/
def depthOf (deduped : List AnchorCand) (tip : AnchorCand) : Nat :=
  1 + depthWalk deduped tip.beat_index.toNat tip

/-- The `linked` flag: a genesis tip must point at `genesisPrevHash()`, any other tip
must have resolved at least one predecessor. -/
def candLinked (deduped : List AnchorCand) (tip : AnchorCand) : Bool :=
  if tip.beat_index == 0 then tip.prev_hash == genesisPrevHash
  else decide (1 < depthOf deduped tip)

/-- A scored tip (`{ tip, depth, linked }` of the source). -/
structure Scored where
  tip : AnchorCand
  depth : Nat
  linked : Bool
deriving Repr, DecidableEq

/-- Score one tip against the deduplicated candidate set. -/
def scoreCand (deduped : List AnchorCand) (tip : AnchorCand) : Scored :=
  { tip := tip, depth := depthOf deduped tip, linked := candLinked deduped tip }

/-- Lexicographic order on character lists by code point — the effect of
`localeCompare(a, b) ≤ 0` on the lowercase hex strings it is applied to
(core `String` order is `@[extern]`-implemented and not reducible, so the
order is spelled out). -/
def lexLe : List Char → List Char → Bool
  | [], _ => true
  | _ :: _, [] => false
  | a :: as, b :: bs =>
    if a.toNat < b.toNat then true
    else if b.toNat < a.toNat then false
    else lexLe as bs

/-- Whether `a.localeCompare(b) ≤ 0`. -/
def strLe (a b : String) : Bool := lexLe a.data b.data

/-- Relation `comparator(a, b) ≤ 0` for the sort: `beat_index` descending,
then `depth` descending, then `hash` ascending by `localeCompare`. -/
def scoredLE (a b : Scored) : Prop :=
  b.tip.beat_index < a.tip.beat_index ∨
  (b.tip.beat_index = a.tip.beat_index ∧
    (b.depth < a.depth ∨ (b.depth = a.depth ∧ strLe a.tip.hash b.tip.hash = true)))

instance : DecidableRel scoredLE := fun a b =>
  inferInstanceAs (Decidable (b.tip.beat_index < a.tip.beat_index ∨
    (b.tip.beat_index = a.tip.beat_index ∧
      (b.depth < a.depth ∨ (b.depth = a.depth ∧ strLe a.tip.hash b.tip.hash = true)))))

instance : IsTotal Scored scoredLE where
  total a b := by
    have lexTot : ∀ l1 l2 : List Char, lexLe l1 l2 = true ∨ lexLe l2 l1 = true := by
      intro l1
      induction l1 with
      | nil => intro l2; left; rfl
      | cons x xs ih =>
        intro l2
        cases l2 with
        | nil => right; rfl
        | cons y ys =>
          by_cases hxy : x.toNat < y.toNat
          · left; simp [lexLe, hxy]
          · by_cases hyx : y.toNat < x.toNat
            · right; simp [lexLe, hyx]
            · rcases ih ys with h | h
              · left; simp [lexLe, hxy, hyx, h]
              · right; simp [lexLe, hxy, hyx, h]
    unfold scoredLE
    rcases lt_trichotomy a.tip.beat_index b.tip.beat_index with h | h | h
    · right; left; exact h
    · rcases lt_trichotomy a.depth b.depth with h2 | h2 | h2
      · right; right; exact ⟨h, Or.inl h2⟩
      · rcases lexTot a.tip.hash.data b.tip.hash.data with h3 | h3
        · left; right; exact ⟨h.symm, Or.inr ⟨h2.symm, h3⟩⟩
        · right; right; exact ⟨h, Or.inr ⟨h2, h3⟩⟩
      · left; right; exact ⟨h.symm, Or.inl h2⟩
    · left; left; exact h

instance : IsTrans Scored scoredLE where
  trans a b c hab hbc := by
    have lexTrans : ∀ l1 l2 l3 : List Char,
        lexLe l1 l2 = true → lexLe l2 l3 = true → lexLe l1 l3 = true := by
      intro l1
      induction l1 with
      | nil => intro l2 l3 _ _; rfl
      | cons x xs ih =>
        intro l2 l3 h12 h23
        cases l2 with
        | nil => simp [lexLe] at h12
        | cons y ys =>
          cases l3 with
          | nil => simp [lexLe] at h23
          | cons z zs =>
            simp only [lexLe] at h12 h23 ⊢
            split_ifs at h12 h23 ⊢ <;>
              first | rfl | omega | (exact ih ys zs h12 h23) | simp_all
    unfold scoredLE at hab hbc ⊢
    rcases hab with h1 | ⟨h1, h2⟩ <;> rcases hbc with h3 | ⟨h3, h4⟩
    · left; omega
    · left; omega
    · left; omega
    · rcases h2 with h2 | ⟨h2, h5⟩ <;> rcases h4 with h4 | ⟨h4, h6⟩
      · right; exact ⟨by omega, Or.inl (by omega)⟩
      · right; exact ⟨by omega, Or.inl (by omega)⟩
      · right; exact ⟨by omega, Or.inl (by omega)⟩
      · right; exact ⟨by omega, Or.inr ⟨by omega, lexTrans _ _ _ h5 h6⟩⟩

/-- Model of `selectCanonicalAnchor(candidates)`: drop malformed, dedup, score depths
through the candidate set, prefer linked tips, stable-sort by the
comparator (JS `Array.prototype.sort` is stable; insertion sort with the
non-strict comparator realises the same stable order) and take the top. -/
def selectCanonicalAnchor (candidates : List AnchorCand) : Option AnchorCand :=
  if candidates.isEmpty then none
  else
    let deduped := dedupCands candidates []
    if deduped.isEmpty then none
    else
      let scored := deduped.map (scoreCand deduped)
      let linkedOnly := scored.filter Scored.linked
      let pool := if linkedOnly.length > 0 then linkedOnly else scored
      ((List.insertionSort scoredLE pool).head?).map Scored.tip

/-- Two candidates agreeing on the whole dedup key except `prev_hash` is
impossible — but agreeing on `(beat_index, hash)` while differing in
`prev_hash` is not, and then the comparator ties. -/
def candA : AnchorCand :=
  { beat_index := 1, hash := String.mk (List.replicate 64 'a'),
    prev_hash := String.mk (List.replicate 64 'b'),
    utc := 1700000000000, difficulty := 1000, epoch := 0 }

/-- Same `(beat_index, hash)` as `candA`, different `prev_hash`. -/
def candB : AnchorCand :=
  { beat_index := 1, hash := String.mk (List.replicate 64 'a'),
    prev_hash := String.mk (List.replicate 64 'c'),
    utc := 1700000000000, difficulty := 1000, epoch := 0 }

/-- Distinct candidates have distinct `(beat_index, hash)` keys (among the
well-formed ones). -/
def keyInjective (l : List AnchorCand) : Prop :=
  ∀ a ∈ l, ∀ b ∈ l, candValid a = true → candValid b = true →
    a.beat_index = b.beat_index → a.hash = b.hash → a = b

/-- A second candidate with a key distinct from `candA` (for the witness). -/
def candD : AnchorCand :=
  { beat_index := 2, hash := String.mk (List.replicate 64 'd'),
    prev_hash := String.mk (List.replicate 64 'e'),
    utc := 1700000000060, difficulty := 1000, epoch := 0 }

theorem hexOfBytes_length (bs : List Nat) : (hexOfBytes bs).length = 2 * bs.length := by
  show ((bs.map byteHex).flatten).length = 2 * bs.length
  induction bs with
  | nil => rfl
  | cons b rest ih =>
    simp only [List.map_cons, List.flatten_cons, List.length_append, ih, List.length_cons]
    simp [byteHex]; omega

theorem sha256bytes_length (msg : List Nat) : (sha256bytes msg).length = 32 := by
  simp [sha256bytes, wordBytes]

theorem sha256hex_length (s : String) : (sha256hex s).length = 64 := by
  rw [sha256hex, hexOfBytes_length, sha256bytes_length]

/-! ## C1 — beat round-trip -/

/-- C1: for every 64-hex `prev`, non-negative index, difficulty in
`[MIN_DIFFICULTY, MAX_DIFFICULTY] = [100, 1000000]`, optional nonce and
optional anchor hash, `verifyBeat (computeBeat …) difficulty` is `true`. -/
theorem verifyBeat_computeBeat_roundTrip (prev : String) (i : Int) (d : Nat)
    (nonce anchorHash : Option String) (now : Int)
    (hprev : isHex64 prev = true) (hi : 0 ≤ i) (hd1 : 100 ≤ d) (hd2 : d ≤ 1000000) :
    verifyBeat (computeBeat prev i d nonce anchorHash now) d = true := by
  simp [verifyBeat, computeBeat]

/-- Witness for C1 at `prev = "0"^64`, index 0, difficulty 100, no nonce, no anchor. -/
theorem verifyBeat_computeBeat_roundTrip_witness :
    isHex64 (String.mk (List.replicate 64 '0')) = true ∧
    verifyBeat (computeBeat (String.mk (List.replicate 64 '0')) 0 100 none none 0) 100 = true :=
  ⟨by decide,
   verifyBeat_computeBeat_roundTrip _ 0 100 none none 0 (by decide) (by decide) (by decide) (by decide)⟩

/-! ## C9 — `undefined` nonce and empty-string nonce coincide -/

/-- C9: `computeBeat` with `nonce = undefined` and with `nonce = ''` build the
same seed (the code interpolates `nonce || ''`), hence the same hash, and
`verifyBeat` accepts a beat whose nonce flips between absent and `''`. -/
theorem computeBeat_nonce_empty_agrees (prev : String) (i : Int) (d : Nat)
    (ah : Option String) (now : Int) :
    beatSeed prev i (some "") ah = beatSeed prev i none ah ∧
    (computeBeat prev i d (some "") ah now).hash = (computeBeat prev i d none ah now).hash ∧
    verifyBeat { computeBeat prev i d none ah now with nonce := some "" } d = true ∧
    verifyBeat { computeBeat prev i d (some "") ah now with nonce := none } d = true := by
  have hseed : beatSeed prev i (some "") ah = beatSeed prev i none ah := by
    simp [beatSeed, optStr]
  refine ⟨hseed, ?_, ?_, ?_⟩
  · simp [computeBeat, hseed]
  · simp [verifyBeat, computeBeat, hseed]
  · simp [verifyBeat, computeBeat, hseed]

/-! ### Lemmas about the sampler -/

theorem mem_insertSet_of_mem {l : List Nat} {x : Nat} (y : Nat) (hx : x ∈ l) :
    x ∈ insertSet l y := by
  unfold insertSet; split <;> simp [hx]

theorem mem_insertSet_self (l : List Nat) (y : Nat) : y ∈ insertSet l y := by
  unfold insertSet; split <;> simp_all

theorem mem_sampleLoop_of_mem {s : List Nat} {x : Nat}
    (fuel : Nat) (material : String) (n wanted : Nat) (hx : x ∈ s) :
    x ∈ sampleLoop fuel material s n wanted := by
  induction fuel generalizing material s with
  | zero => exact hx
  | succ f ih =>
    unfold sampleLoop
    split
    · exact ih _ (mem_insertSet_of_mem _ hx)
    · exact hx

/-- A push-style `foldl` is the filtered map, in one shot. -/
theorem foldl_push_eq_filter_map {α β : Type} (q : α → Bool) (f : α → β)
    (l : List α) (acc : List β) :
    l.foldl (fun acc x => if q x then acc else acc ++ [f x]) acc
      = acc ++ (l.filter (fun x => !(q x))).map f := by
  induction l generalizing acc with
  | nil => simp
  | cons a t ih =>
    by_cases hq : q a = true <;> simp [List.foldl_cons, hq, ih, List.filter_cons]

theorem insertSet_base_length (n : Nat) (hn : 1 ≤ n) :
    (insertSet (insertSet [] 0) (n - 1)).length = if n = 1 then 1 else 2 := by
  by_cases h1 : n = 1
  · subst h1; simp [insertSet]
  · have hz : ¬ (n - 1 = 0) := by omega
    simp [insertSet, hz, h1]

theorem mem_chainToCheck_of_mem_base {beats : List Beat} {difficulty : Nat}
    {spotCheckCount : Int} {x : Nat}
    (hx : x ∈ insertSet (insertSet [] 0) (beats.length - 1)) :
    x ∈ chainToCheck beats difficulty spotCheckCount := by
  simp only [chainToCheck]
  split
  · apply mem_sampleLoop_of_mem
    split
    · apply mem_insertSet_of_mem
      apply mem_insertSet_of_mem
      split
      · exact mem_insertSet_of_mem _ hx
      · exact hx
    · split
      · exact mem_insertSet_of_mem _ hx
      · exact hx
  · exact hx

/-! ## C10 — the two index spaces in `failed`, and the `checked` count -/

/-- C10: for a non-empty chain, `verifyBeatChain` reports in `failed` first the
*array positions* `i` with broken linkage (`beats[i].prev ≠ beats[i-1].hash`),
then, for every sampled position failing recomputation, that beat's own
`index` *field* — two different index spaces in one list — and `checked`
always equals the number of sampled positions plus `n - 1`. -/
theorem verifyBeatChain_failed_mixes_spaces (beats : List Beat) (difficulty : Nat)
    (spotCheckCount : Int) (hne : beats ≠ []) :
    (verifyBeatChain beats difficulty spotCheckCount).checked
        = (chainToCheck beats difficulty spotCheckCount).length + beats.length - 1 ∧
    (verifyBeatChain beats difficulty spotCheckCount).failed
        = ((List.range' 1 (beats.length - 1)).filter
            (fun i => !((beats.getD i defBeat).prev == (beats.getD (i - 1) defBeat).hash))).map
            (Nat.cast : Nat → Int)
          ++ ((chainToCheck beats difficulty spotCheckCount).filter
              (fun idx => !(verifyBeat (beats.getD idx defBeat) difficulty))).map
              (fun idx => (beats.getD idx defBeat).index) ∧
    ((verifyBeatChain beats difficulty spotCheckCount).valid = true ↔
      (verifyBeatChain beats difficulty spotCheckCount).failed = []) := by
  have hlen : ¬ beats.length = 0 := by simpa using hne
  simp only [verifyBeatChain, if_neg hlen]
  rw [foldl_push_eq_filter_map, foldl_push_eq_filter_map]
  refine ⟨trivial, ?_, ?_⟩
  · simp only [List.nil_append]
  · simp [List.isEmpty_iff]

/-- Witness for C10 at the one-beat chain. -/
theorem verifyBeatChain_failed_mixes_spaces_witness :
    ([defBeat] : List Beat) ≠ [] ∧
    (verifyBeatChain [defBeat] 0 3).checked
      = (chainToCheck [defBeat] 0 3).length + ([defBeat] : List Beat).length - 1 :=
  ⟨by simp, (verifyBeatChain_failed_mixes_spaces [defBeat] 0 3 (by simp)).1⟩

/-! ## C2 — deterministic sampling (corrected) -/

/-- C2 counterexample: with `n = 8 ≥ 4` but a requested count of only 2, the
sample set is exactly `{0, 7}` — `floor(n/2) = 4` is *not* sampled, because
the evenly spaced points are only added when the clamped request exceeds the
endpoint samples. -/
theorem chainSampling_counterexample :
    4 ≤ (List.replicate 8 defBeat : List Beat).length ∧
    chainToCheck (List.replicate 8 defBeat) 1000 2 = [0, 7] ∧
    ¬ ((List.replicate 8 defBeat : List Beat).length / 2
        ∈ chainToCheck (List.replicate 8 defBeat) 1000 2) := by
  decide

/-- C2 (amended): `verifyBeatChain` always samples `0` and `n-1`; *when the
clamped requested count exceeds the endpoint-sample count* (`1` for `n = 1`,
else `2`) it additionally samples `n/2` for `n ≥ 4` and `n/4`, `3n/4` for
`n ≥ 8`; and the whole sample set is a deterministic function of
`(n, difficulty, beats[0].hash, beats[n-1].hash, requested count)`. -/
theorem chainToCheck_spec (beats b2 : List Beat) (difficulty : Nat) (spotCheckCount : Int)
    (hne : beats ≠ []) :
    (0 ∈ chainToCheck beats difficulty spotCheckCount ∧
     beats.length - 1 ∈ chainToCheck beats difficulty spotCheckCount) ∧
    ((min spotCheckCount (beats.length : Int)).toNat > (if beats.length = 1 then 1 else 2) →
      (4 ≤ beats.length → beats.length / 2 ∈ chainToCheck beats difficulty spotCheckCount) ∧
      (8 ≤ beats.length →
        beats.length / 4 ∈ chainToCheck beats difficulty spotCheckCount ∧
        3 * beats.length / 4 ∈ chainToCheck beats difficulty spotCheckCount)) ∧
    (beats.length = b2.length →
      beats.head?.map Beat.hash = b2.head?.map Beat.hash →
      beats.getLast?.map Beat.hash = b2.getLast?.map Beat.hash →
      chainToCheck beats difficulty spotCheckCount = chainToCheck b2 difficulty spotCheckCount) := by
  have hn1 : 1 ≤ beats.length := List.length_pos.mpr hne
  refine ⟨⟨?_, ?_⟩, ?_, ?_⟩
  · exact mem_chainToCheck_of_mem_base
      (mem_insertSet_of_mem _ (mem_insertSet_self _ 0))
  · exact mem_chainToCheck_of_mem_base (mem_insertSet_self _ _)
  · intro hwant
    have hgt : (min spotCheckCount (beats.length : Int)).toNat
        > (insertSet (insertSet [] 0) (beats.length - 1)).length := by
      rwa [insertSet_base_length _ hn1]
    constructor
    · intro h4
      simp only [chainToCheck, if_pos hgt, if_pos h4]
      by_cases h8 : 8 ≤ beats.length
      · simp only [if_pos h8]
        exact mem_sampleLoop_of_mem _ _ _ _
          (mem_insertSet_of_mem _ (mem_insertSet_of_mem _ (mem_insertSet_self _ _)))
      · simp only [if_neg h8]
        exact mem_sampleLoop_of_mem _ _ _ _ (mem_insertSet_self _ _)
    · intro h8
      have h4 : 4 ≤ beats.length := by omega
      constructor
      · simp only [chainToCheck, if_pos hgt, if_pos h4, if_pos h8]
        exact mem_sampleLoop_of_mem _ _ _ _
          (mem_insertSet_of_mem _ (mem_insertSet_self _ _))
      · simp only [chainToCheck, if_pos hgt, if_pos h4, if_pos h8]
        exact mem_sampleLoop_of_mem _ _ _ _ (mem_insertSet_self _ _)
  · intro hlen hfirst hlast
    simp only [chainToCheck, hlen, hfirst, hlast]

/-- Witness for C2's amended theorem at a two-beat chain. -/
theorem chainToCheck_spec_witness :
    ([defBeat, defBeat] : List Beat) ≠ [] ∧
    0 ∈ chainToCheck [defBeat, defBeat] 1000 3 ∧
    ([defBeat, defBeat] : List Beat).length - 1 ∈ chainToCheck [defBeat, defBeat] 1000 3 :=
  ⟨by simp, (chainToCheck_spec [defBeat, defBeat] [] 1000 3 (by simp)).1.1,
   (chainToCheck_spec [defBeat, defBeat] [] 1000 3 (by simp)).1.2⟩

/-! ### Hash-shape lemmas -/

theorem iterHash_sha_length (d : Nat) : ∀ s : String, (iterHash d (sha256hex s)).length = 64 := by
  induction d with
  | zero => intro s; exact sha256hex_length s
  | succ k ih => intro s; exact ih (sha256hex s)

theorem verifyBeat_hash_length {b : Beat} {d : Nat} (h : verifyBeat b d = true) :
    b.hash.length = 64 := by
  unfold verifyBeat computeBeat at h
  have := eq_of_beq h
  rw [← this]
  exact iterHash_sha_length d _

theorem verifyBeat_hash_ne_empty {b : Beat} {d : Nat} (h : verifyBeat b d = true) :
    ¬ b.hash = "" := by
  intro he
  have := verifyBeat_hash_length h
  rw [he] at this
  simp [String.length] at this

/-- The loop accepts exactly when every check carries a `prev` and passes
recomputation; the hash shape guard is subsumed by recomputation matching,
because a matching hash is a 64-char SHA-256 hex output. -/
theorem checkSpots_spec (difficulty : Nat) (ah : Option String) :
    ∀ (l : List SpotCheck) (k : Nat),
    ((checkSpots difficulty ah l k).valid = true ↔
      ∀ sc ∈ l, ¬ sc.prev = "" ∧ verifyBeat (spotBeat sc ah) difficulty = true) ∧
    ((checkSpots difficulty ah l k).valid = true →
      (checkSpots difficulty ah l k).spot_checks_verified = some (k + l.length)) := by
  intro l
  induction l with
  | nil => intro k; simp [checkSpots]
  | cons check rest ih =>
    intro k
    by_cases hshape : check.hash = "" ∨ ¬ (check.hash.length = 64)
    · constructor
      · rw [checkSpots, if_pos hshape]
        simp only [Bool.false_eq_true, false_iff]
        intro hall
        have hv := (hall check (by simp)).2
        rcases hshape with h | h
        · exact verifyBeat_hash_ne_empty hv h
        · exact h (verifyBeat_hash_length hv)
      · rw [checkSpots, if_pos hshape]; intro h; cases h
    · by_cases hprev : check.prev = ""
      · constructor
        · rw [checkSpots, if_neg hshape, if_pos hprev]
          simp only [Bool.false_eq_true, false_iff]
          intro hall
          exact (hall check (by simp)).1 hprev
        · rw [checkSpots, if_neg hshape, if_pos hprev]; intro h; cases h
      · by_cases hver : verifyBeat (spotBeat check ah) difficulty = true
        · have heq : checkSpots difficulty ah (check :: rest) k
              = checkSpots difficulty ah rest (k + 1) := by
            rw [checkSpots, if_neg hshape, if_neg hprev, if_neg (by simp [hver])]
          rw [heq]
          refine ⟨?_, ?_⟩
          · rw [(ih (k + 1)).1]
            constructor
            · intro hall sc hsc
              rcases List.mem_cons.mp hsc with h | h
              · subst h; exact ⟨hprev, hver⟩
              · exact hall sc h
            · intro hall sc hsc
              exact hall sc (List.mem_cons_of_mem _ hsc)
          · intro hvalid
            have hcount := (ih (k + 1)).2 hvalid
            rw [hcount]
            simp only [List.length_cons]
            congr 1
            omega
        · constructor
          · rw [checkSpots, if_neg hshape, if_neg hprev, if_pos (by simp [hver])]
            simp only [Bool.false_eq_true, false_iff]
            intro hall
            exact hver (hall check (by simp)).2
          · rw [checkSpots, if_neg hshape, if_neg hprev, if_pos (by simp [hver])]
            intro h; cases h

/-! ## C4 — check-in proof verification -/

/-- C4: `verifyCheckinProof` accepts exactly when the window is consistent
(`beats_computed = to_beat - from_beat`, `from_beat < to_beat`), at least
`min(3, beats_computed)` spot checks are provided, some spot check has
`index = to_beat`, every spot check carries a `prev`, and every spot check's
`verifyBeat` recomputation (with the proof's `anchor_hash`) matches; on
acceptance `spot_checks_verified` is the number of spot checks. -/
theorem verifyCheckinProof_spec (proof : BeatProof) (difficulty : Nat) :
    ((verifyCheckinProof proof difficulty).valid = true ↔
      (proof.beats_computed = proof.to_beat - proof.from_beat ∧
       proof.from_beat < proof.to_beat ∧
       ¬ (((proof.spot_checks.getD []).length : Int) < min 3 proof.beats_computed) ∧
       (∃ sc ∈ proof.spot_checks.getD [], sc.index = proof.to_beat) ∧
       (∀ sc ∈ proof.spot_checks.getD [],
         ¬ sc.prev = "" ∧ verifyBeat (spotBeat sc proof.anchor_hash) difficulty = true))) ∧
    ((verifyCheckinProof proof difficulty).valid = true →
      (verifyCheckinProof proof difficulty).spot_checks_verified
        = some (proof.spot_checks.getD []).length) := by
  by_cases h1 : proof.beats_computed = proof.to_beat - proof.from_beat
  case neg =>
    rw [verifyCheckinProof, if_pos h1]
    exact ⟨by simp [h1], by intro h; cases h⟩
  by_cases h2 : proof.to_beat ≤ proof.from_beat
  case pos =>
    rw [verifyCheckinProof, if_neg (by simp [h1]), if_pos h2]
    refine ⟨?_, by intro h; cases h⟩
    simp only [Bool.false_eq_true, false_iff]
    intro hall
    exact absurd hall.2.1 (by omega)
  have hpos : proof.beats_computed > 0 := by omega
  by_cases h3 : ((proof.spot_checks.getD []).length : Int) < min 3 proof.beats_computed
  case pos =>
    rw [verifyCheckinProof, if_neg (by simp [h1]), if_neg h2, if_pos ⟨hpos, h3⟩]
    refine ⟨?_, by intro h; cases h⟩
    simp only [Bool.false_eq_true, false_iff]
    intro hall
    exact hall.2.2.1 h3
  have hsome : proof.spot_checks.isSome := by
    rcases hcs : proof.spot_checks with _ | l
    · exfalso
      apply h3
      rw [hcs]
      simp only [Option.getD_none, List.length_nil, Nat.cast_zero]
      omega
    · simp
  by_cases h4 : (proof.spot_checks.getD []).any fun sc => sc.index == proof.to_beat
  case neg =>
    rw [verifyCheckinProof, if_neg (by simp [h1]), if_neg h2, if_neg (by simp [h3]),
      if_pos ⟨hpos, hsome, by simp [h4]⟩]
    constructor
    · simp only [Bool.false_eq_true, false_iff]
      intro hall
      rcases hall.2.2.2.1 with ⟨sc, hsc, hidx⟩
      exact h4 (List.any_eq_true.mpr ⟨sc, hsc, by simp [hidx]⟩)
    · intro h; cases h
  rw [verifyCheckinProof, if_neg (by simp [h1]), if_neg h2, if_neg (by simp [h3]),
    if_neg (by simp [h4])]
  have hloop := checkSpots_spec difficulty proof.anchor_hash (proof.spot_checks.getD []) 0
  constructor
  · rw [hloop.1]
    constructor
    · intro hall
      refine ⟨h1, by omega, h3, ?_, hall⟩
      rcases List.any_eq_true.mp h4 with ⟨sc, hsc, hidx⟩
      exact ⟨sc, hsc, by simpa using hidx⟩
    · intro hall
      exact hall.2.2.2.2
  · intro hvalid
    have := hloop.2 hvalid
    simpa using this

/-! ## C3 — work-proof reason order -/

/-- C3: on a structurally valid request the work-proof route answers HTTP 200,
with exactly the first applicable reason in source order —
`insufficient_difficulty` iff `difficulty < 100`; `insufficient_spot_checks`
iff (at sufficient difficulty) fewer than `min(3, beats_computed)` checks;
`count_mismatch` iff the index span exceeds `beats_computed`; `stale_anchor`
iff a tip exists and lags/leads out of the grace window (skipped with no
tip); `spot_check_failed` iff some check fails `verifyBeat` at the clamped
difficulty with the proof's `anchor_hash`; else `{valid:true, receipt}`. -/
theorem workProofPost_spec (wp : WorkProofReq) (tip : Option GlobalAnchor)
    (h : wpStructuralOk wp = true) :
    wpStatus (workProofPost wp tip) = 200 ∧
    (workProofPost wp tip = .invalid "insufficient_difficulty" ↔
      wp.difficulty < 100) ∧
    (workProofPost wp tip = .invalid "insufficient_spot_checks" ↔
      (¬ wp.difficulty < 100 ∧
       (wp.spot_checks.length : Int) < min 3 wp.beats_computed)) ∧
    (workProofPost wp tip = .invalid "count_mismatch" ↔
      (¬ wp.difficulty < 100 ∧
       ¬ ((wp.spot_checks.length : Int) < min 3 wp.beats_computed) ∧
       listMaxD (wp.spot_checks.map SpotCheck.index)
         - listMinD (wp.spot_checks.map SpotCheck.index) > wp.beats_computed)) ∧
    (workProofPost wp tip = .invalid "stale_anchor" ↔
      (¬ wp.difficulty < 100 ∧
       ¬ ((wp.spot_checks.length : Int) < min 3 wp.beats_computed) ∧
       ¬ (listMaxD (wp.spot_checks.map SpotCheck.index)
         - listMinD (wp.spot_checks.map SpotCheck.index) > wp.beats_computed) ∧
       ∃ t, tip = some t ∧
         (t.beat_index - wp.anchor_index > 5 ∨ wp.anchor_index > t.beat_index))) ∧
    (workProofPost wp tip = .invalid "spot_check_failed" ↔
      (¬ wp.difficulty < 100 ∧
       ¬ ((wp.spot_checks.length : Int) < min 3 wp.beats_computed) ∧
       ¬ (listMaxD (wp.spot_checks.map SpotCheck.index)
         - listMinD (wp.spot_checks.map SpotCheck.index) > wp.beats_computed) ∧
       ¬ (∃ t, tip = some t ∧
         (t.beat_index - wp.anchor_index > 5 ∨ wp.anchor_index > t.beat_index)) ∧
       ∃ sc ∈ wp.spot_checks,
         ¬ verifyBeat (spotBeat sc wp.anchor_hash) (min wp.difficulty 5000).toNat = true)) ∧
    ((∃ r, workProofPost wp tip = .accepted r) ↔
      (¬ wp.difficulty < 100 ∧
       ¬ ((wp.spot_checks.length : Int) < min 3 wp.beats_computed) ∧
       ¬ (listMaxD (wp.spot_checks.map SpotCheck.index)
         - listMinD (wp.spot_checks.map SpotCheck.index) > wp.beats_computed) ∧
       ¬ (∃ t, tip = some t ∧
         (t.beat_index - wp.anchor_index > 5 ∨ wp.anchor_index > t.beat_index)) ∧
       ∀ sc ∈ wp.spot_checks,
         verifyBeat (spotBeat sc wp.anchor_hash) (min wp.difficulty 5000).toNat = true)) := by
  simp only [wpStructuralOk, Bool.and_eq_true, decide_eq_true_eq] at h
  obtain ⟨⟨⟨⟨⟨⟨⟨hfh, hth⟩, hbc⟩, hai⟩, hah⟩, hlen1⟩, hlen2⟩, hshape⟩ := h
  have e1 : ¬ (isHex64 wp.from_hash = false) := by simp [hfh]
  have e2 : ¬ (isHex64 wp.to_hash = false) := by simp [hth]
  have e3 : ¬ (wp.beats_computed < 1) := by omega
  have e4 : ¬ (wp.anchor_index < 0) := by omega
  have e5 : ¬ (optIsHex64 wp.anchor_hash = false) := by simp [hah]
  have e6 : ¬ (wp.spot_checks.length = 0) := by omega
  have e7 : ¬ (wp.spot_checks.length > PUBLIC_MAX_SPOT_CHECKS) := Nat.not_lt.mpr hlen2
  have e8 : ¬ ((wp.spot_checks.all fun sc =>
      decide (0 ≤ sc.index) && isHex64 sc.hash && isHex64 sc.prev) = false) := by simp [hshape]
  simp only [workProofPost, wpChainStage, MIN_DIFFICULTY, MIN_SPOT_CHECKS,
    ANCHOR_HASH_GRACE_WINDOW, PUBLIC_MAX_DIFFICULTY]
  rw [if_neg e1, if_neg e2, if_neg e3, if_neg e4, if_neg e5, if_neg e6, if_neg e7, if_neg e8]
  by_cases hd : wp.difficulty < 100
  · simp [if_pos hd, hd, wpStatus]
  · rw [if_neg hd]
    by_cases hcnt : (wp.spot_checks.length : Int) < min 3 wp.beats_computed
    · simp [if_pos hcnt, hd, hcnt, wpStatus]
    · rw [if_neg hcnt]
      by_cases hspan : listMaxD (wp.spot_checks.map SpotCheck.index)
          - listMinD (wp.spot_checks.map SpotCheck.index) > wp.beats_computed
      · simp [if_pos hspan, hd, hcnt, hspan, wpStatus]
      · rw [if_neg hspan]
        rcases tip with _ | t
        · by_cases hfail : (wp.spot_checks.any
              fun sc => !(verifyBeat (spotBeat sc wp.anchor_hash) (min wp.difficulty 5000).toNat)) = true
          · simp only [if_pos hfail]
            simp only [List.any_eq_true, Bool.not_eq_true'] at hfail
            rcases hfail with ⟨sc, hsc, hscf⟩
            simp [hd, hcnt, hspan, wpStatus]
            exact ⟨sc, hsc, by simp [hscf]⟩
          · simp only [if_neg hfail]
            simp only [List.any_eq_true, Bool.not_eq_true'] at hfail
            push_neg at hfail
            simp [hd, hcnt, hspan, wpStatus]
            intro sc hsc
            have hv := hfail sc hsc
            simpa using hv
        · by_cases hstale : t.beat_index - wp.anchor_index > 5 ∨ wp.anchor_index > t.beat_index
          · simp [if_pos hstale, hd, hcnt, hspan, hstale, wpStatus]
          · simp only [if_neg hstale]
            by_cases hfail : (wp.spot_checks.any
                fun sc => !(verifyBeat (spotBeat sc wp.anchor_hash) (min wp.difficulty 5000).toNat)) = true
            · simp only [if_pos hfail]
              simp only [List.any_eq_true, Bool.not_eq_true'] at hfail
              rcases hfail with ⟨sc, hsc, hscf⟩
              simp [hd, hcnt, hspan, hstale, wpStatus]
              exact ⟨sc, hsc, by simp [hscf]⟩
            · simp only [if_neg hfail]
              simp only [List.any_eq_true, Bool.not_eq_true'] at hfail
              push_neg at hfail
              simp [hd, hcnt, hspan, hstale, wpStatus]
              intro sc hsc
              have hv := hfail sc hsc
              simpa using hv

/-- Witness for C3: a structurally valid request is answered with HTTP 200,
and at difficulty 50 the reason is `insufficient_difficulty`. -/
theorem workProofPost_spec_witness :
    wpStructuralOk wpReqW = true ∧
    wpStatus (workProofPost wpReqW none) = 200 ∧
    (workProofPost wpReqW none = .invalid "insufficient_difficulty" ↔ wpReqW.difficulty < 100) :=
  ⟨by decide, (workProofPost_spec wpReqW none (by decide)).1,
   (workProofPost_spec wpReqW none (by decide)).2.1⟩

/-! ## C8 — `parseAnchorMemo` drops `solana_entropy` (code bug) -/

/-- C8: the failing input `memoJsonW` is a valid anchor memo that *does*
carry a `solana_entropy` field, `parseAnchorMemo` accepts it (and renames
`prev` to `prev_hash`), but the returned record's `solana_entropy` is
`none` — the source omits the field from the returned object even though
its own caller `readLatestAnchor` reads `parsed.solana_entropy`. -/
theorem parseAnchorMemo_drops_entropy :
    jget memoJsonW "solana_entropy"
      = some (.str "4sGjMW1sUnHzSxGspuhpqLDx6wiyjNtZAMdL1VZHirAn") ∧
    (parseAnchorMemo (some memoJsonW)).map AnchorRec.prev_hash
      = some (String.mk (List.replicate 64 'b')) ∧
    (parseAnchorMemo (some memoJsonW)).map AnchorRec.solana_entropy = some none := by
  refine ⟨rfl, ?_, ?_⟩ <;> rfl

/-! ## UTF-8 injectivity (for the constant-time comparison's correctness) -/

theorem encChar_append_inj {a b : Nat} {as bs : List Nat}
    (h : encChar a ++ as = encChar b ++ bs) : a = b ∧ as = bs := by
  unfold encChar at h
  split_ifs at h <;>
    simp only [List.cons_append, List.nil_append, List.cons.injEq] at h <;>
    refine ⟨by omega, ?_⟩ <;> first | tauto | (exfalso; omega)

theorem encCharList_inj : ∀ l1 l2 : List Char,
    (l1.map fun c => encChar c.toNat).flatten = (l2.map fun c => encChar c.toNat).flatten →
    l1 = l2 := by
  intro l1
  induction l1 with
  | nil =>
    intro l2 h
    cases l2 with
    | nil => rfl
    | cons b t =>
      exfalso
      simp only [List.map_nil, List.flatten_nil, List.map_cons, List.flatten_cons] at h
      have hne : encChar b.toNat ≠ [] := by
        unfold encChar; split_ifs <;> simp
      rcases hc : encChar b.toNat with _ | ⟨x, xs⟩
      · exact hne hc
      · rw [hc] at h; simp at h
  | cons a t1 ih =>
    intro l2 h
    cases l2 with
    | nil =>
      exfalso
      simp only [List.map_nil, List.flatten_nil, List.map_cons, List.flatten_cons] at h
      have hne : encChar a.toNat ≠ [] := by
        unfold encChar; split_ifs <;> simp
      rcases hc : encChar a.toNat with _ | ⟨x, xs⟩
      · exact hne hc
      · rw [hc] at h; simp at h
    | cons b t2 =>
      simp only [List.map_cons, List.flatten_cons] at h
      obtain ⟨hab, hrest⟩ := encChar_append_inj h
      have hchar : a = b := Char.ext (UInt32.ext hab)
      rw [hchar, ih t2 hrest]

theorem encStr_inj {s1 s2 : String} (h : encStr s1 = encStr s2) : s1 = s2 := by
  have hd : s1.data = s2.data := encCharList_inj _ _ h
  cases s1; cases s2; exact congrArg String.mk hd

theorem constantTimeSecretEqual_iff (p e : String) :
    constantTimeSecretEqual p e = true ↔ p = e := by
  constructor
  · intro h
    unfold constantTimeSecretEqual at h
    split_ifs at h
    exact encStr_inj (by simpa using h)
  · intro h
    subst h
    simp [constantTimeSecretEqual]

/-! ## C5 — cron fail-closed on missing entropy -/

/-- C5: an authorised cron invocation that finds the tip absent or stale and
gets no external entropy answers 503 and publishes no memo — the anchor
head is never advanced without entropy. -/
theorem cronAnchor_failClosed (secret : String) (latest : Option GlobalAnchor) (now : Int)
    (hstale : ∀ l, latest = some l → now - l.utc > 60 * 1000) :
    cronAnchorGet (some secret) (some ("Bearer " ++ secret)) latest now none
      = { status := 503, ledgerRead := true, published := none, action := none } := by
  have htrue : constantTimeSecretEqual ("Bearer " ++ secret) ("Bearer " ++ secret) = true :=
    (constantTimeSecretEqual_iff _ _).mpr rfl
  cases latest with
  | none => simp [cronAnchorGet, htrue, cronAdvance]
  | some l =>
    have hs := hstale l rfl
    simp only [cronAnchorGet, htrue, Bool.not_true]
    rw [if_neg (by simp), if_neg (not_not_intro hs)]
    rfl

/-- Witness for C5 on a cold start (no tip). -/
theorem cronAnchor_failClosed_witness :
    cronAnchorGet (some "cron-secret") (some ("Bearer " ++ "cron-secret")) none 0 none
      = { status := 503, ledgerRead := true, published := none, action := none } :=
  cronAnchor_failClosed "cron-secret" none 0 (by intro l h; cases h)

/-! ## C6 — cron authentication -/

/-- C6: with `CRON_SECRET` unset every cron request is refused with 503
(no ledger read, nothing published); with it set, the comparison routed
through `constantTimeSecretEqual` is functionally exact string equality
against `"Bearer " + CRON_SECRET` (its constant-time *timing* is a
non-functional property outside this model), and a mismatching header is
rejected with 401 before any ledger interaction (`ledgerRead = false`,
nothing published). -/
theorem cronAnchor_auth (secret provided : String)
    (hmis : ¬ provided = "Bearer " ++ secret) :
    (∀ (ah : Option String) (latest : Option GlobalAnchor) (now : Int) (e : Option String),
      cronAnchorGet none ah latest now e
        = { status := 503, published := none, ledgerRead := false, action := none }) ∧
    (∀ p : String, constantTimeSecretEqual p ("Bearer " ++ secret) = true ↔
      p = "Bearer " ++ secret) ∧
    (∀ (latest : Option GlobalAnchor) (now : Int) (e : Option String),
      cronAnchorGet (some secret) (some provided) latest now e
        = { status := 401, published := none, ledgerRead := false, action := none }) := by
  refine ⟨fun ah latest now e => rfl, fun p => constantTimeSecretEqual_iff _ _, ?_⟩
  intro latest now e
  have hfalse : constantTimeSecretEqual provided ("Bearer " ++ secret) = false := by
    rcases hb : constantTimeSecretEqual provided ("Bearer " ++ secret) with _ | _
    · rfl
    · exact absurd ((constantTimeSecretEqual_iff _ _).mp hb) hmis
  simp [cronAnchorGet, hfalse]

/-- Witness for C6 at a concrete wrong header. -/
theorem cronAnchor_auth_witness :
    ¬ ("Bearer wrong" = "Bearer " ++ "cron-secret") ∧
    cronAnchorGet (some "cron-secret") (some "Bearer wrong") none 0 none
      = { status := 401, published := none, ledgerRead := false, action := none } :=
  ⟨by decide, (cronAnchor_auth "cron-secret" "Bearer wrong" (by decide)).2.2 none 0 none⟩

theorem lexLe_antisymm : ∀ l1 l2 : List Char,
    lexLe l1 l2 = true → lexLe l2 l1 = true → l1 = l2 := by
  intro l1
  induction l1 with
  | nil =>
    intro l2 _ h21
    cases l2 with
    | nil => rfl
    | cons b bs => simp [lexLe] at h21
  | cons a as ih =>
    intro l2 h12 h21
    cases l2 with
    | nil => simp [lexLe] at h12
    | cons b bs =>
      simp only [lexLe] at h12 h21
      by_cases hab : a.toNat < b.toNat
      · simp [hab, show ¬ b.toNat < a.toNat by omega] at h21
      · by_cases hba : b.toNat < a.toNat
        · simp [hab, hba] at h12
        · simp only [if_neg hab, if_neg hba] at h12 h21
          have hnat : a.toNat = b.toNat := by omega
          have hch : a = b := Char.ext (UInt32.ext (show a.val.toNat = b.val.toNat from hnat))
          rw [hch, ih bs h12 h21]

theorem strLe_antisymm {s1 s2 : String} (h12 : strLe s1 s2 = true)
    (h21 : strLe s2 s1 = true) : s1 = s2 := by
  have hd := lexLe_antisymm _ _ h12 h21
  cases s1; cases s2; exact congrArg String.mk hd

/-! ## C7 — selector order dependence (corrected) -/

/-- C7 counterexample: two well-formed candidates sharing `(beat_index,
hash)` but with different `prev_hash` tie on every comparator key, so the
stable sort preserves input order and the selector returns whichever came
first: `selectCanonicalAnchor` is *not* invariant under permutation. -/
theorem selectCanonicalAnchor_counterexample :
    selectCanonicalAnchor [candA, candB] = some candA ∧
    selectCanonicalAnchor [candB, candA] = some candB ∧
    ¬ (selectCanonicalAnchor [candA, candB] = selectCanonicalAnchor [candB, candA]) := by
  refine ⟨by decide, by decide, by decide⟩

/-! ### Permutation invariance of the selector under key-distinctness -/

theorem mem_dedupCands {x : AnchorCand} :
    ∀ (l seen : List AnchorCand),
    x ∈ dedupCands l seen ↔ (x ∈ l ∧ candValid x = true ∧ x ∉ seen) := by
  intro l
  induction l with
  | nil => intro seen; simp [dedupCands]
  | cons c rest ih =>
    intro seen
    by_cases hv : candValid c = true
    · by_cases hs : c ∈ seen
      · rw [dedupCands, if_neg (by simpa using hv), if_pos hs, ih]
        constructor
        · rintro ⟨h1, h2, h3⟩; exact ⟨List.mem_cons_of_mem _ h1, h2, h3⟩
        · rintro ⟨h1, h2, h3⟩
          rcases List.mem_cons.mp h1 with h | h
          · subst h; exact absurd hs h3
          · exact ⟨h, h2, h3⟩
      · rw [dedupCands, if_neg (by simpa using hv), if_neg hs]
        constructor
        · intro hmem
          rcases List.mem_cons.mp hmem with h | h
          · subst h; exact ⟨List.mem_cons_self _ _, hv, hs⟩
          · have hh := (ih (c :: seen)).mp h
            exact ⟨List.mem_cons_of_mem _ hh.1, hh.2.1,
              fun hmem2 => hh.2.2 (List.mem_cons_of_mem _ hmem2)⟩
        · rintro ⟨h1, h2, h3⟩
          by_cases hxc : x = c
          · subst hxc; exact List.mem_cons_self _ _
          · have hxrest : x ∈ rest := by
              rcases List.mem_cons.mp h1 with h | h
              · exact absurd h hxc
              · exact h
            refine List.mem_cons_of_mem _ ((ih (c :: seen)).mpr ⟨hxrest, h2, ?_⟩)
            intro hx
            rcases List.mem_cons.mp hx with h4 | h4
            · exact hxc h4
            · exact h3 h4
    · rw [dedupCands, if_pos (by simpa using hv), ih]
      constructor
      · rintro ⟨h1, h2, h3⟩; exact ⟨List.mem_cons_of_mem _ h1, h2, h3⟩
      · rintro ⟨h1, h2, h3⟩
        rcases List.mem_cons.mp h1 with h | h
        · subst h; exact absurd h2 hv
        · exact ⟨h, h2, h3⟩

theorem nodup_dedupCands : ∀ (l seen : List AnchorCand), (dedupCands l seen).Nodup := by
  intro l
  induction l with
  | nil => intro seen; simp [dedupCands]
  | cons c rest ih =>
    intro seen
    by_cases hv : candValid c = true
    · by_cases hs : c ∈ seen
      · rw [dedupCands, if_neg (by simpa using hv), if_pos hs]; exact ih seen
      · rw [dedupCands, if_neg (by simpa using hv), if_neg hs]
        refine List.nodup_cons.mpr ⟨?_, ih _⟩
        intro hmem
        exact ((mem_dedupCands rest (c :: seen)).mp hmem).2.2 (List.mem_cons_self _ _)
    · rw [dedupCands, if_pos (by simpa using hv)]; exact ih seen

theorem dedupCands_perm {l1 l2 : List AnchorCand} (hperm : l1.Perm l2) :
    (dedupCands l1 []).Perm (dedupCands l2 []) := by
  refine (List.perm_ext_iff_of_nodup (nodup_dedupCands l1 []) (nodup_dedupCands l2 [])).mpr ?_
  intro a
  rw [mem_dedupCands, mem_dedupCands, hperm.mem_iff]

theorem lookupCand_perm_eq {l1 l2 : List AnchorCand} (hperm : l1.Perm l2)
    (hinj : keyInjective l1) (i : Int) (h : String) :
    lookupCand (dedupCands l1 []) i h = lookupCand (dedupCands l2 []) i h := by
  have hfp := (dedupCands_perm hperm).filter (fun c => c.beat_index == i && c.hash == h)
  have hmem1 : ∀ x ∈ (dedupCands l1 []).filter (fun c => c.beat_index == i && c.hash == h),
      x ∈ l1 ∧ candValid x = true ∧ x.beat_index = i ∧ x.hash = h := by
    intro x hx
    have hx1 := List.mem_filter.mp hx
    have hd := (mem_dedupCands l1 []).mp hx1.1
    have hc := hx1.2
    simp only [Bool.and_eq_true, beq_iff_eq] at hc
    exact ⟨hd.1, hd.2.1, hc.1, hc.2⟩
  have hkey : ∀ x ∈ (dedupCands l1 []).filter (fun c => c.beat_index == i && c.hash == h),
      ∀ y ∈ (dedupCands l1 []).filter (fun c => c.beat_index == i && c.hash == h), x = y := by
    intro x hx y hy
    obtain ⟨hx1, hx2, hx3, hx4⟩ := hmem1 x hx
    obtain ⟨hy1, hy2, hy3, hy4⟩ := hmem1 y hy
    exact hinj x hx1 y hy1 hx2 hy2 (by rw [hx3, hy3]) (by rw [hx4, hy4])
  unfold lookupCand
  rcases hl1 : (dedupCands l1 []).filter (fun c => c.beat_index == i && c.hash == h)
    with _ | ⟨a, t⟩
  · rw [hl1] at hfp
    have h2nil : (dedupCands l2 []).filter (fun c => c.beat_index == i && c.hash == h) = [] := by
      have := hfp.length_eq
      exact List.eq_nil_of_length_eq_zero (by simpa using this.symm)
    rw [hl1, h2nil]
  · rcases hg1 : ((dedupCands l1 []).filter
        (fun c => c.beat_index == i && c.hash == h)).getLast? with _ | la
    · rw [List.getLast?_eq_none_iff] at hg1
      rw [hg1] at hl1; cases hl1
    rcases hg2 : ((dedupCands l2 []).filter
        (fun c => c.beat_index == i && c.hash == h)).getLast? with _ | lb
    · rw [List.getLast?_eq_none_iff] at hg2
      rw [hg2] at hfp
      have := hfp.length_eq
      rw [hl1] at this; simp at this
    have hla := List.mem_of_getLast?_eq_some hg1
    have hlb1 : lb ∈ (dedupCands l1 []).filter (fun c => c.beat_index == i && c.hash == h) :=
      hfp.mem_iff.mpr (List.mem_of_getLast?_eq_some hg2)
    rw [hg1, hg2, hkey la hla lb hlb1]

theorem depthWalk_congr {d1 d2 : List AnchorCand}
    (hlk : ∀ i h, lookupCand d1 i h = lookupCand d2 i h) :
    ∀ (fuel : Nat) (c : AnchorCand), depthWalk d1 fuel c = depthWalk d2 fuel c := by
  intro fuel
  induction fuel with
  | zero => intro c; rfl
  | succ f ih =>
    intro c
    simp only [depthWalk]
    rw [hlk]
    by_cases hle : c.beat_index ≤ 0
    · simp [hle]
    · simp only [if_neg hle]
      rcases lookupCand d2 (c.beat_index - 1) c.prev_hash with _ | prev
      · rfl
      · show 1 + depthWalk d1 f prev = 1 + depthWalk d2 f prev
        rw [ih prev]

theorem scoreCand_congr {d1 d2 : List AnchorCand}
    (hlk : ∀ i h, lookupCand d1 i h = lookupCand d2 i h) (tip : AnchorCand) :
    scoreCand d1 tip = scoreCand d2 tip := by
  simp only [scoreCand, depthOf, candLinked, depthWalk_congr hlk]

theorem lexLe_refl : ∀ l : List Char, lexLe l l = true := by
  intro l
  induction l with
  | nil => rfl
  | cons a t ih => simp [lexLe, ih]

theorem scoredLE_refl (a : Scored) : scoredLE a a :=
  Or.inr ⟨rfl, Or.inr ⟨rfl, lexLe_refl _⟩⟩

theorem sorted_perm_head_eq {l1 l2 : List Scored} (hp : l1.Perm l2)
    (hs1 : l1.Sorted scoredLE) (hs2 : l2.Sorted scoredLE)
    (hanti : ∀ a ∈ l1, ∀ b ∈ l1, scoredLE a b → scoredLE b a → a = b) :
    l1.head? = l2.head? := by
  cases l1 with
  | nil =>
    cases l2 with
    | nil => rfl
    | cons b t2 => simpa using hp.length_eq
  | cons a t1 =>
    cases l2 with
    | nil => simpa using hp.length_eq
    | cons b t2 =>
      have hb1 : b ∈ a :: t1 := hp.mem_iff.mpr (List.mem_cons_self _ _)
      have ha2 : a ∈ b :: t2 := hp.mem_iff.mp (List.mem_cons_self _ _)
      have hab : scoredLE a b := by
        rcases List.mem_cons.mp hb1 with h | h
        · rw [h]; exact scoredLE_refl a
        · exact List.rel_of_sorted_cons hs1 b h
      have hba : scoredLE b a := by
        rcases List.mem_cons.mp ha2 with h | h
        · rw [h]; exact scoredLE_refl b
        · exact List.rel_of_sorted_cons hs2 a h
      have hone : a = b := hanti a (List.mem_cons_self _ _) b hb1 hab hba
      simp [hone]

/-! ## C7 — selector permutation invariance (amended) -/

/-- C7 (amended): `selectCanonicalAnchor` is invariant under input
permutation *provided* distinct well-formed candidates never share a
`(beat_index, hash)` key — the comparator then never ties on distinct
scored tips, so the sorted order (and the stable sort's result) is unique,
and dedup, `byIndex` lookups and depths are all order-independent. -/
theorem selectCanonicalAnchor_perm_invariant (l1 l2 : List AnchorCand)
    (hperm : l1.Perm l2) (hinj : keyInjective l1) :
    selectCanonicalAnchor l1 = selectCanonicalAnchor l2 := by
  have hlk : ∀ i h, lookupCand (dedupCands l1 []) i h = lookupCand (dedupCands l2 []) i h :=
    lookupCand_perm_eq hperm hinj
  have hdp : (dedupCands l1 []).Perm (dedupCands l2 []) := dedupCands_perm hperm
  by_cases he1 : l1.isEmpty
  · have hl1 : l1 = [] := by simpa [List.isEmpty_iff] using he1
    have hl2 : l2 = [] := by
      have := hperm.length_eq
      rw [hl1] at this
      exact List.eq_nil_of_length_eq_zero this.symm
    rw [hl1, hl2]
  · have he2 : ¬ l2.isEmpty := by
      intro hc
      have hl2 : l2 = [] := by simpa [List.isEmpty_iff] using hc
      rw [hl2] at hperm
      exact he1 (by simp [List.isEmpty_iff, hperm.eq_nil])
    simp only [selectCanonicalAnchor, if_neg he1, if_neg he2]
    by_cases hd1 : (dedupCands l1 []).isEmpty
    · have hd2 : (dedupCands l2 []).isEmpty := by
        have := hdp.length_eq
        have hnil : dedupCands l1 [] = [] := by simpa [List.isEmpty_iff] using hd1
        rw [hnil] at this
        simp [List.isEmpty_iff, List.eq_nil_of_length_eq_zero this.symm]
      rw [if_pos hd1, if_pos hd2]
    · have hd2 : ¬ (dedupCands l2 []).isEmpty := by
        intro hc
        have hnil : dedupCands l2 [] = [] := by simpa [List.isEmpty_iff] using hc
        rw [hnil] at hdp
        exact hd1 (by simp [List.isEmpty_iff, hdp.eq_nil])
      rw [if_neg hd1, if_neg hd2]
      have hmapeq : (dedupCands l2 []).map (scoreCand (dedupCands l2 []))
          = (dedupCands l2 []).map (scoreCand (dedupCands l1 [])) :=
        List.map_congr_left fun x _ => (scoreCand_congr hlk x).symm
      have hsp : ((dedupCands l1 []).map (scoreCand (dedupCands l1 []))).Perm
          ((dedupCands l2 []).map (scoreCand (dedupCands l2 []))) := by
        rw [hmapeq]
        exact hdp.map _
      have hanti : ∀ a ∈ (dedupCands l1 []).map (scoreCand (dedupCands l1 [])),
          ∀ b ∈ (dedupCands l1 []).map (scoreCand (dedupCands l1 [])),
          scoredLE a b → scoredLE b a → a = b := by
        intro a ha b hb hab hba
        obtain ⟨ta, hta, rfl⟩ := List.mem_map.mp ha
        obtain ⟨tb, htb, rfl⟩ := List.mem_map.mp hb
        simp only [scoreCand, scoredLE] at hab hba
        have hda := (mem_dedupCands l1 []).mp hta
        have hdb := (mem_dedupCands l1 []).mp htb
        have hhash : ta.hash = tb.hash := by
          rcases hab with h | ⟨h, h2⟩
          · rcases hba with h3 | ⟨h3, _⟩
            · exfalso; omega
            · exfalso; omega
          · rcases hba with h3 | ⟨h3, h4⟩
            · exfalso; omega
            · rcases h2 with h2 | ⟨h2, h5⟩
              · rcases h4 with h4 | ⟨h4, h6⟩
                · exfalso; omega
                · exfalso; omega
              · rcases h4 with h4 | ⟨h4, h6⟩
                · exfalso; omega
                · exact strLe_antisymm h5 h6
        have hbi : ta.beat_index = tb.beat_index := by
          rcases hab with h | ⟨h, _⟩ <;> rcases hba with h3 | ⟨h3, _⟩ <;> omega
        have hth : ta = tb := hinj ta hda.1 tb hdb.1 hda.2.1 hdb.2.1 hbi hhash
        rw [hth]
      set scored1 := (dedupCands l1 []).map (scoreCand (dedupCands l1 [])) with hsc1
      set scored2 := (dedupCands l2 []).map (scoreCand (dedupCands l2 [])) with hsc2
      have hlfp := hsp.filter Scored.linked
      by_cases hlink : (scored1.filter Scored.linked).length > 0
      · have hlink2 : (scored2.filter Scored.linked).length > 0 := by
          rw [← hlfp.length_eq]; exact hlink
        rw [if_pos hlink, if_pos hlink2]
        refine congrArg (Option.map Scored.tip) (sorted_perm_head_eq ?_ ?_ ?_ ?_)
        · exact (List.perm_insertionSort _ _).trans (hlfp.trans (List.perm_insertionSort _ _).symm)
        · exact List.sorted_insertionSort _ _
        · exact List.sorted_insertionSort _ _
        · intro a ha b hb
          have ha2 : a ∈ scored1.filter Scored.linked := by
            rwa [List.mem_insertionSort] at ha
          have hb2 : b ∈ scored1.filter Scored.linked := by
            rwa [List.mem_insertionSort] at hb
          exact hanti a (List.mem_of_mem_filter ha2) b (List.mem_of_mem_filter hb2)
      · have hlink2 : ¬ (scored2.filter Scored.linked).length > 0 := by
          rw [← hlfp.length_eq]; exact hlink
        rw [if_neg hlink, if_neg hlink2]
        refine congrArg (Option.map Scored.tip) (sorted_perm_head_eq ?_ ?_ ?_ ?_)
        · exact (List.perm_insertionSort _ _).trans (hsp.trans (List.perm_insertionSort _ _).symm)
        · exact List.sorted_insertionSort _ _
        · exact List.sorted_insertionSort _ _
        · intro a ha b hb
          rw [List.mem_insertionSort] at ha hb
          exact hanti a ha b hb

/-- Witness for C7's amended theorem: a concrete key-distinct pair is
selected identically in both orders. -/
theorem selectCanonicalAnchor_perm_invariant_witness :
    ([candA, candD] : List AnchorCand).Perm [candD, candA] ∧
    keyInjective [candA, candD] ∧
    selectCanonicalAnchor [candA, candD] = selectCanonicalAnchor [candD, candA] :=
  ⟨List.Perm.swap candD candA [], by unfold keyInjective; decide,
   selectCanonicalAnchor_perm_invariant [candA, candD] [candD, candA]
     (List.Perm.swap candD candA []) (by unfold keyInjective; decide)⟩

end Beats
